import Mathlib

/-!
Shallow embedding of the identity matching and consistency core of the
Live-Face-Recognition repository.

The modelled code:
  * `src/modules/verifier.py` — `Verifier.calculate_distance`,
    `Verifier.verify`, `Verifier.verify_with_database`,
    `Verifier.verify_with_voting`;
  * `src/config.py` — the threshold / metric / voting constants;
  * `src/database/db_manager.py` — `DatabaseManager.get_all_users` and the
    shape of the user / embedding tables, as the matching code reads them;
  * `src/api.py` — the duplicate check performed at enrollment.

Floating point numbers are modelled as real numbers; `float('inf')` is the
top element of `WithTop ℝ`.  A numpy `ValueError` raised by an operation on
incompatible 1-D shapes is modelled as the `DimensionMismatch` failure of an
`Except` computation.
-/

/-- An embedding vector (a 1-D numpy float array) as a list of reals. -/
abbrev Vec := List ℝ

/-- The metrics `Verifier.calculate_distance` dispatches on
(`config.py` offers cosine, euclidean, euclidean_l2; the `else` branch for an
unknown metric string raises unconditionally and is outside this model). -/
inductive Metric
  | cosine
  | euclidean
  | euclidean_l2
deriving DecidableEq

/-- Failure of one comparison: numpy raises `ValueError` when two 1-D shapes
cannot be combined; the spec calls this condition `DimensionMismatch`. -/
inductive DistError
  | DimensionMismatch
deriving DecidableEq

/-- The `1e-10` guard added to every denominator in `calculate_distance`. -/
noncomputable def eps : ℝ := 1e-10

/-- Sum of the squared entries of a vector (the square of `np.linalg.norm`). -/
noncomputable def sumSq (a : Vec) : ℝ := (a.map (fun x => x * x)).sum

/-- `np.linalg.norm` on a 1-D array. -/
noncomputable def norm2 (a : Vec) : ℝ := Real.sqrt (sumSq a)

/-- `np.dot` on two 1-D arrays: the inner product when the lengths agree and
a `ValueError` otherwise (`np.dot` does not broadcast 1-D arguments). -/
noncomputable def dotE (a b : Vec) : Except DistError ℝ :=
  if a.length = b.length then
    .ok (((a.zip b).map (fun p => p.1 * p.2)).sum)
  else .error .DimensionMismatch

/-- Elementwise subtraction of two 1-D numpy arrays with numpy's
broadcasting rule: equal lengths subtract elementwise, a length-1 array is
broadcast against the other, and every other shape pair raises. -/
def subB (a b : Vec) : Except DistError Vec :=
  if a.length = b.length then .ok ((a.zip b).map (fun p => p.1 - p.2))
  else if a.length = 1 then .ok (b.map (fun y => a.headD 0 - y))
  else if b.length = 1 then .ok (a.map (fun x => x - b.headD 0))
  else .error .DimensionMismatch

/-- The metric dispatch of `Verifier.calculate_distance` for two present
(non-None) embeddings; when it succeeds the value is a finite float. -/
noncomputable def distF (m : Metric) (a b : Vec) : Except DistError ℝ :=
  match m with
  | .cosine => do
      let dp ← dotE a b
      let sim := dp / (norm2 a * norm2 b + eps)
      pure (1 - sim)
  | .euclidean => do
      let d ← subB a b
      pure (norm2 d)
  | .euclidean_l2 => do
      let a1 := a.map (fun x => x / (norm2 a + eps))
      let b1 := b.map (fun x => x / (norm2 b + eps))
      let d ← subB a1 b1
      pure (norm2 d)

/-- Distances as the matcher stores them: a float or `float('inf')`. -/
abbrev DistVal := WithTop ℝ

/-- The `Verifier` object: its `threshold` and `metric` fields. -/
structure Verifier where
  threshold : ℝ
  metric : Metric

/-- `Verifier.calculate_distance`: `None` on either side yields
`float('inf')`; otherwise the metric computation runs (and can raise). -/
noncomputable def Verifier.calculate_distance (v : Verifier)
    (e1 e2 : Option Vec) : Except DistError DistVal :=
  match e1, e2 with
  | some a, some b => (distF v.metric a b).map (fun d => (d : DistVal))
  | _, _ => .ok ⊤

/-- The result dictionary `Verifier.verify` builds.  (The source's
None-query branch additionally carries a `user_id: None` entry and its main
branch carries no `user_id` key at all; no caller reads that key from
`verify`, so the model keeps the three fields every branch shares.) -/
structure VerifyOutcome where
  verified : Bool
  distance : DistVal
  confidence : ℝ

/-- The `distances` list built by the loop in `Verifier.verify`.  Both the
query and each stored embedding are present there, so each entry is the
finite `distF` value. -/
noncomputable def distList (m : Metric) (q : Vec) :
    List Vec → Except DistError (List ℝ)
  | [] => pure []
  | e :: es => do
      let d ← distF m q e
      let ds ← distList m q es
      pure (d :: ds)

/-- The confidence computation of `Verifier.verify`: the metric-dependent
linear rescaling of the minimum distance, clamped into [0, 100]
(`max 0 _` first, then `min 100 _`, as in the source). -/
noncomputable def Verifier.conf (v : Verifier) (minD : ℝ) : ℝ :=
  let confRaw :=
    if v.metric = .cosine then (1 - minD / v.threshold) * 100
    else (1 - minD / (v.threshold * 2)) * 100
  min 100 (max 0 confRaw)

/-- `Verifier.verify`: the empty result when the query is `None` or the
stored list is empty; otherwise the minimum distance over the stored
embeddings, its confidence, and the strict threshold comparison. -/
noncomputable def Verifier.verify (v : Verifier) (query : Option Vec)
    (stored : List Vec) : Except DistError VerifyOutcome :=
  match query, stored with
  | none, _ => pure ⟨false, ⊤, 0⟩
  | some _, [] => pure ⟨false, ⊤, 0⟩
  | some q, e :: es => do
      let d0 ← distF v.metric q e
      let ds ← distList v.metric q es
      let minD := ds.foldl min d0
      pure ⟨decide (minD < v.threshold), (minD : DistVal), v.conf minD⟩

/-- One row of the `users` table together with the rows of the `embeddings`
table that reference it (`DatabaseManager.get_embeddings user_id`). -/
structure DBUser where
  user_id : String
  name : String
  owner_id : Option Nat
  embeddings : List Vec

/-- The `DatabaseManager`, reduced to what matching reads: the user rows in
the order `get_all_users` returns them (ORDER BY created_at DESC). -/
structure DBManager where
  users : List DBUser

/-- `DatabaseManager.get_all_users`: every user when `owner_id` is `None`,
otherwise only the rows with that owner, in the same relative order. -/
def DBManager.get_all_users (db : DBManager) (owner_id : Option Nat) :
    List DBUser :=
  match owner_id with
  | none => db.users
  | some o => db.users.filter (fun u => u.owner_id == some o)

/-- The `best_match` dictionary of `Verifier.verify_with_database`. -/
structure DBResult where
  verified : Bool
  distance : DistVal
  confidence : ℝ
  user_id : Option String
  user_name : Option String

/-- The initial `best_match` of `Verifier.verify_with_database`. -/
def emptyDBResult : DBResult := ⟨false, ⊤, 0, none, none⟩

/-- The user loop of `Verifier.verify_with_database`: a user without
embeddings is skipped; otherwise `verify` runs on the user's embeddings and
`best_match` is replaced exactly when the new distance is strictly
smaller. -/
noncomputable def dbLoop (v : Verifier) (query : Option Vec) :
    List DBUser → DBResult → Except DistError DBResult
  | [], best => .ok best
  | u :: us, best =>
      if u.embeddings.isEmpty then dbLoop v query us best
      else
        match v.verify query u.embeddings with
        | .error err => .error err
        | .ok r =>
            dbLoop v query us
              (if r.distance < best.distance then
                DBResult.mk r.verified r.distance r.confidence
                  (some u.user_id) (some u.name)
              else best)

/-- `Verifier.verify_with_database`: iterates over
`db_manager.get_all_users()` — called with NO owner filter — starting from
the empty `best_match`. -/
noncomputable def Verifier.verify_with_database (v : Verifier)
    (query : Option Vec) (db : DBManager) : Except DistError DBResult :=
  dbLoop v query (db.get_all_users none) emptyDBResult

/-- `config.VERIFICATION_THRESHOLD`. -/
noncomputable def VERIFICATION_THRESHOLD : ℝ := 0.25

/-- `config.DUPLICATE_THRESHOLD`. -/
noncomputable def DUPLICATE_THRESHOLD : ℝ := 0.20

/-- `config.DISTANCE_METRIC`. -/
def DISTANCE_METRIC : Metric := .cosine

/-- `config.VERIFICATION_FRAMES` (the voting window capacity). -/
def VERIFICATION_FRAMES : Nat := 5

/-- `config.VERIFICATION_MAJORITY` (the majority threshold). -/
def VERIFICATION_MAJORITY : Nat := 3

/-- `Verifier()` with the configured defaults. -/
noncomputable def defaultVerifier : Verifier :=
  ⟨VERIFICATION_THRESHOLD, DISTANCE_METRIC⟩

/-- `deque(maxlen=VERIFICATION_FRAMES).append`: the oldest entries are
dropped once the window is over capacity.  Only the `verified` field of the
appended result copy is ever read back, so the window stores that flag. -/
def dequeAppend (h : List Bool) (b : Bool) : List Bool :=
  let h1 := h ++ [b]
  if VERIFICATION_FRAMES < h1.length then
    h1.drop (h1.length - VERIFICATION_FRAMES)
  else h1

/-- The result dictionary `Verifier.verify_with_voting` returns: the fields
of the incoming result plus the voting bookkeeping keys (`Option` marks the
keys only one branch adds). -/
structure VotingResult where
  verified : Bool
  distance : DistVal
  confidence : ℝ
  user_id : Option String
  user_name : Option String
  voting_status : String
  votes : Option Nat
  votes_needed : Option Nat
  votes_verified : Option Nat
  votes_total : Option Nat

/-- `Verifier.verify_with_voting`: appends the current verdict to the
window, reports `collecting` with the raw result while the window holds
fewer than `VERIFICATION_MAJORITY` entries, and otherwise substitutes the
majority decision for `verified` (every other field passes through).  The
mutated `verification_history` is returned alongside the result. -/
def verify_with_voting (history : List Bool) (r : DBResult) :
    List Bool × VotingResult :=
  let h := dequeAppend history r.verified
  if h.length < VERIFICATION_MAJORITY then
    (h, ⟨r.verified, r.distance, r.confidence, r.user_id, r.user_name,
         "collecting", some h.length, some VERIFICATION_MAJORITY, none, none⟩)
  else
    let verifiedVotes := h.count true
    (h, ⟨decide (VERIFICATION_MAJORITY ≤ verifiedVotes), r.distance,
         r.confidence, r.user_id, r.user_name,
         "complete", none, none, some verifiedVotes, some h.length⟩)

/-- The identity-level distance the spec describes: the minimum over one
identity's stored distances, `+inf` for an identity without vectors.
`verify` computes exactly this for a non-empty list. -/
noncomputable def userMin (ds : List ℝ) : DistVal :=
  match ds with
  | [] => ⊤
  | d :: rest => ((rest.foldl min d : ℝ) : DistVal)

/-! ### Basic facts about the distance engine -/

theorem eps_pos : (0 : ℝ) < eps := by norm_num [eps]

theorem sumSq_nonneg (a : Vec) : 0 ≤ sumSq a := by
  unfold sumSq
  induction a with
  | nil => simp
  | cons x xs ih =>
      simp only [List.map_cons, List.sum_cons]
      nlinarith [mul_self_nonneg x]

theorem norm2_mul_self (a : Vec) : norm2 a * norm2 a = sumSq a :=
  Real.mul_self_sqrt (sumSq_nonneg a)

theorem dotE_self (a : Vec) : dotE a a = .ok (sumSq a) := by
  unfold dotE sumSq
  rw [if_pos rfl]
  congr 1
  induction a with
  | nil => simp
  | cons x xs ih => simp_all [List.zip_cons_cons]

theorem subB_self (a : Vec) :
    subB a a = .ok ((a.zip a).map (fun p => p.1 - p.2)) := by
  unfold subB
  rw [if_pos rfl]

theorem sumSq_sub_self (a : Vec) :
    sumSq ((a.zip a).map (fun p => p.1 - p.2)) = 0 := by
  unfold sumSq
  induction a with
  | nil => simp
  | cons x xs ih => simp_all [List.zip_cons_cons]

theorem distF_self_euclidean (a : Vec) : distF .euclidean a a = .ok 0 := by
  unfold distF
  rw [subB_self]
  show Except.ok (norm2 _) = _
  rw [norm2, sumSq_sub_self, Real.sqrt_zero]

theorem distF_self_cosine (a : Vec) :
    distF .cosine a a = .ok (eps / (sumSq a + eps)) := by
  unfold distF
  rw [dotE_self]
  show Except.ok _ = _
  congr 1
  rw [norm2_mul_self]
  have h0 : 0 < sumSq a + eps := by
    have h1 := sumSq_nonneg a
    have h2 := eps_pos
    linarith
  field_simp

/-! ### Evaluation lemmas for `verify` and `verify_with_database` -/

theorem verify_cons (v : Verifier) (q e : Vec) (es : List Vec) (d : ℝ)
    (ds : List ℝ) (h1 : distF v.metric q e = .ok d)
    (h2 : distList v.metric q es = .ok ds) :
    v.verify (some q) (e :: es) =
      .ok ⟨decide (ds.foldl min d < v.threshold),
           ((ds.foldl min d : ℝ) : DistVal), v.conf (ds.foldl min d)⟩ := by
  simp only [Verifier.verify]
  rw [h1, h2]
  rfl

theorem verify_single (v : Verifier) (q e : Vec) (d : ℝ)
    (h : distF v.metric q e = .ok d) :
    v.verify (some q) [e] =
      .ok ⟨decide (d < v.threshold), (d : DistVal), v.conf d⟩ := by
  have := verify_cons v q e [] d [] h rfl
  simpa using this

theorem verify_cons_inv (v : Verifier) (q e : Vec) (es : List Vec)
    (r : VerifyOutcome) (h : v.verify (some q) (e :: es) = .ok r) :
    ∃ d ds, distF v.metric q e = .ok d ∧ distList v.metric q es = .ok ds ∧
      r = ⟨decide (ds.foldl min d < v.threshold),
           ((ds.foldl min d : ℝ) : DistVal), v.conf (ds.foldl min d)⟩ := by
  cases hd : distF v.metric q e with
  | error err =>
      simp only [Verifier.verify] at h
      rw [hd] at h
      exact Except.noConfusion h
  | ok d =>
      cases hds : distList v.metric q es with
      | error err =>
          simp only [Verifier.verify] at h
          rw [hd, hds] at h
          exact Except.noConfusion h
      | ok ds =>
          refine ⟨d, ds, rfl, rfl, ?_⟩
          have heval := verify_cons v q e es d ds hd hds
          rw [heval] at h
          exact (Except.ok.inj h).symm

theorem distList_cons_inv (m : Metric) (q e : Vec) (es : List Vec)
    (l : List ℝ) (h : distList m q (e :: es) = .ok l) :
    ∃ d ds, distF m q e = .ok d ∧ distList m q es = .ok ds ∧ l = d :: ds := by
  cases hd : distF m q e with
  | error err =>
      simp only [distList] at h
      rw [hd] at h
      exact Except.noConfusion h
  | ok d =>
      cases hds : distList m q es with
      | error err =>
          simp only [distList] at h
          rw [hd, hds] at h
          exact Except.noConfusion h
      | ok ds =>
          refine ⟨d, ds, rfl, rfl, ?_⟩
          simp only [distList] at h
          rw [hd, hds] at h
          exact (Except.ok.inj h).symm

/-! ### The selection fold underlying `verify_with_database` -/

/-- One pass of the `best_match` update, projected onto the
(user_id, distance) pair it selects on. -/
noncomputable def bestStep (acc : Option String × DistVal)
    (p : DBUser × DistVal) : Option String × DistVal :=
  if p.2 < acc.2 then (some p.1.user_id, p.2) else acc

theorem foldl_min_le_init (l : List (DBUser × DistVal)) :
    ∀ bd : DistVal, l.foldl (fun a p => min a p.2) bd ≤ bd := by
  induction l with
  | nil => intro bd; exact le_refl bd
  | cons x xs ih =>
      intro bd
      simp only [List.foldl_cons]
      exact le_trans (ih (min bd x.2)) (min_le_left _ _)

theorem bestFold_spec (l : List (DBUser × DistVal)) :
    ∀ (bid : Option String) (bd : DistVal),
      (l.foldl bestStep (bid, bd)).2 = l.foldl (fun a p => min a p.2) bd ∧
      ((l.foldl bestStep (bid, bd)).2 = bd →
        (l.foldl bestStep (bid, bd)).1 = bid) ∧
      ((l.foldl bestStep (bid, bd)).2 < bd →
        ∃ pre p post, l = pre ++ p :: post ∧
          (l.foldl bestStep (bid, bd)).1 = some p.1.user_id ∧
          p.2 = (l.foldl bestStep (bid, bd)).2 ∧
          ∀ p' ∈ pre, (l.foldl bestStep (bid, bd)).2 < p'.2) := by
  induction l with
  | nil =>
      intro bid bd
      exact ⟨rfl, fun _ => rfl, fun h => absurd h (lt_irrefl bd)⟩
  | cons x xs ih =>
      intro bid bd
      simp only [List.foldl_cons]
      by_cases hx : x.2 < bd
      · have hstep : bestStep (bid, bd) x = (some x.1.user_id, x.2) := by
          simp [bestStep, hx]
        rw [hstep]
        obtain ⟨ih1, ih2, ih3⟩ := ih (some x.1.user_id) x.2
        have hminbd : min bd x.2 = x.2 := min_eq_right (le_of_lt hx)
        have hle : (xs.foldl bestStep (some x.1.user_id, x.2)).2 ≤ x.2 := by
          rw [ih1]; exact foldl_min_le_init xs x.2
        refine ⟨by rw [ih1, hminbd], ?_, ?_⟩
        · intro h2
          exfalso
          rw [h2] at hle
          exact absurd hx (not_lt.mpr hle)
        · intro _
          rcases lt_or_eq_of_le hle with hlt | heq
          · obtain ⟨pre, p, post, hsplit, hid, hp2, hpre⟩ := ih3 hlt
            refine ⟨x :: pre, p, post, by rw [hsplit, List.cons_append],
              hid, hp2, ?_⟩
            intro p' hp'
            rcases List.mem_cons.mp hp' with h | h
            · rw [h]; exact hlt
            · exact hpre p' h
          · exact ⟨[], x, xs, rfl, ih2 heq, heq.symm, by simp⟩
      · have hstep : bestStep (bid, bd) x = (bid, bd) := by
          simp [bestStep, hx]
        rw [hstep]
        obtain ⟨ih1, ih2, ih3⟩ := ih bid bd
        have hminbd : min bd x.2 = bd := min_eq_left (not_lt.mp hx)
        refine ⟨by rw [ih1, hminbd], ih2, ?_⟩
        intro h3
        obtain ⟨pre, p, post, hsplit, hid, hp2, hpre⟩ := ih3 h3
        refine ⟨x :: pre, p, post, by rw [hsplit, List.cons_append],
          hid, hp2, ?_⟩
        intro p' hp'
        rcases List.mem_cons.mp hp' with h | h
        · rw [h]; exact lt_of_lt_of_le h3 (not_lt.mp hx)
        · exact hpre p' h

theorem dbLoop_pairs (v : Verifier) (q : Vec)
    (pairs : List (DBUser × List ℝ)) :
    ∀ best : DBResult,
      (∀ p ∈ pairs, distList v.metric q p.1.embeddings = .ok p.2) →
      ∃ b, dbLoop v (some q) (pairs.map Prod.fst) best = .ok b ∧
        (b.user_id, b.distance) =
          (pairs.map (fun p => (p.1, userMin p.2))).foldl bestStep
            (best.user_id, best.distance) := by
  induction pairs with
  | nil =>
      intro best _
      exact ⟨best, rfl, rfl⟩
  | cons hd tl ih =>
      intro best hp
      obtain ⟨u, l⟩ := hd
      have hl : distList v.metric q u.embeddings = .ok l :=
        hp (u, l) (List.mem_cons_self _ _)
      have htl : ∀ p ∈ tl, distList v.metric q p.1.embeddings = .ok p.2 :=
        fun p hp' => hp p (List.mem_cons_of_mem _ hp')
      by_cases hue : u.embeddings.isEmpty = true
      · have hnil : u.embeddings = [] := by
          cases hcase : u.embeddings with
          | nil => rfl
          | cons e es => rw [hcase] at hue; simp at hue
        have hl0 : l = [] := by
          rw [hnil] at hl
          exact (Except.ok.inj hl).symm
        obtain ⟨b, hb, hbs⟩ := ih best htl
        refine ⟨b, ?_, ?_⟩
        · simp only [List.map_cons, dbLoop]
          rw [if_pos hue]
          exact hb
        · subst hl0
          simp only [List.map_cons, List.foldl_cons]
          have hskip : bestStep (best.user_id, best.distance) (u, userMin []) =
              (best.user_id, best.distance) := by
            simp [bestStep, userMin, not_top_lt]
          rw [hskip]
          exact hbs
      · obtain ⟨e, es, hes⟩ : ∃ e es, u.embeddings = e :: es := by
          cases hcase : u.embeddings with
          | nil => rw [hcase] at hue; simp at hue
          | cons e es => exact ⟨e, es, rfl⟩
        rw [hes] at hl
        obtain ⟨d, ds, hd', hds, hl'⟩ := distList_cons_inv _ _ _ _ _ hl
        have hv := verify_cons v q e es d ds hd' hds
        have humin : userMin l = ((ds.foldl min d : ℝ) : DistVal) := by
          rw [hl']
          rfl
        obtain ⟨b, hb, hbs⟩ := ih
          (if ((ds.foldl min d : ℝ) : DistVal) < best.distance then
            DBResult.mk (decide (ds.foldl min d < v.threshold))
              ((ds.foldl min d : ℝ) : DistVal) (v.conf (ds.foldl min d))
              (some u.user_id) (some u.name)
          else best) htl
        refine ⟨b, ?_, ?_⟩
        · simp only [List.map_cons, dbLoop]
          rw [if_neg hue, hes, hv]
          exact hb
        · simp only [List.map_cons, List.foldl_cons]
          rw [humin]
          by_cases hlt : ((ds.foldl min d : ℝ) : DistVal) < best.distance
          · have hstep2 : bestStep (best.user_id, best.distance)
                (u, ((ds.foldl min d : ℝ) : DistVal)) =
                (some u.user_id, ((ds.foldl min d : ℝ) : DistVal)) := by
              simp [bestStep, hlt]
            rw [hstep2]
            rw [if_pos hlt] at hbs
            exact hbs
          · have hstep2 : bestStep (best.user_id, best.distance)
                (u, ((ds.foldl min d : ℝ) : DistVal)) =
                (best.user_id, best.distance) := by
              simp [bestStep, hlt]
            rw [hstep2]
            rw [if_neg hlt] at hbs
            exact hbs

theorem dbLoop_all_empty (v : Verifier) (q : Option Vec) :
    ∀ (us : List DBUser) (best : DBResult),
      (∀ u ∈ us, u.embeddings = []) → dbLoop v q us best = .ok best := by
  intro us
  induction us with
  | nil => intro best _; rfl
  | cons u tl ih =>
      intro best h
      have hu : u.embeddings = [] := h u (List.mem_cons_self _ _)
      simp only [dbLoop]
      rw [if_pos (by rw [hu]; rfl)]
      exact ih best (fun u' hu' => h u' (List.mem_cons_of_mem _ hu'))

theorem sqrt_eval {x y : ℝ} (hy : 0 ≤ y) (h : x = y * y) :
    Real.sqrt x = y := by
  rw [h]
  exact Real.sqrt_mul_self hy

theorem distF_euclid_single (x y : ℝ) :
    distF .euclidean [x] [y] = .ok (Real.sqrt ((x - y) * (x - y))) := by
  unfold distF
  rw [show subB [x] [y] = .ok [x - y] from by simp [subB]]
  show Except.ok (norm2 [x - y]) = _
  rw [norm2]
  congr 1
  simp [sumSq]

/-! ### C5 — strict threshold comparison -/

/-- C5: for every query and non-empty store on which `verify` succeeds, the
per-frame match is `verified` exactly when the minimum distance is strictly
below the threshold; a distance equal to the threshold is NOT verified. -/
theorem C5_strict_threshold (v : Verifier) (q e : Vec) (es : List Vec)
    (r : VerifyOutcome) (h : v.verify (some q) (e :: es) = .ok r) :
    (r.verified = true ↔ r.distance < (v.threshold : DistVal)) ∧
    (r.distance = (v.threshold : DistVal) → r.verified = false) := by
  obtain ⟨d, ds, _, _, hr⟩ := verify_cons_inv v q e es r h
  subst hr
  constructor
  · simp only [decide_eq_true_eq]
    exact WithTop.coe_lt_coe.symm
  · intro hd
    have hd2 : ((ds.foldl min d : ℝ) : DistVal) = (v.threshold : DistVal) := hd
    have heq : ds.foldl min d = v.threshold := by exact_mod_cast hd2
    simp [heq]

/-- C5 witness: a store at euclidean distance exactly 0.25 from the query,
with threshold 0.25, is not verified. -/
theorem C5_strict_threshold_witness :
    (Verifier.mk 0.25 .euclidean).verify (some [0]) [[0.25]] =
        .ok ⟨false, ((0.25 : ℝ) : DistVal), 50⟩ ∧
      (((false : Bool) = true ↔
          ((0.25 : ℝ) : DistVal) < ((0.25 : ℝ) : DistVal)) ∧
        (((0.25 : ℝ) : DistVal) = ((0.25 : ℝ) : DistVal) →
          (false : Bool) = false)) := by
  have hd := distF_euclid_single 0 0.25
  rw [show Real.sqrt (((0 : ℝ) - 0.25) * ((0 : ℝ) - 0.25)) = (0.25 : ℝ) from
    sqrt_eval (by norm_num) (by norm_num)] at hd
  have h0 := verify_single (Verifier.mk 0.25 .euclidean) [0] [0.25] 0.25 hd
  have hdec : decide ((0.25 : ℝ) < (0.25 : ℝ)) = false := by simp
  have hconf : (Verifier.mk (0.25 : ℝ) Metric.euclidean).conf 0.25 = 50 := by
    simp only [Verifier.conf]
    norm_num
    rw [if_neg (by simp)]
    norm_num [inf_eq_min, sup_eq_max, min_def, max_def]
  rw [hdec, hconf] at h0
  exact ⟨h0, C5_strict_threshold (Verifier.mk 0.25 .euclidean) [0] [0.25] []
    ⟨false, ((0.25 : ℝ) : DistVal), 50⟩ h0⟩

/-! ### C4, C9, C10 — the voting stabilizer -/

/-- C4: once the voting window holds at least `VERIFICATION_MAJORITY`
entries, the stabilized decision is `verified = (count of true votes ≥
VERIFICATION_MAJORITY)`; concretely a window `[T,T,T,F,F]` yields true and
`[T,T,F,F,F]` yields false (majority 3 of 5). -/
theorem C4_majority_vote (hist : List Bool) (r : DBResult)
    (h : VERIFICATION_MAJORITY ≤ (dequeAppend hist r.verified).length) :
    (verify_with_voting hist r).2.verified =
      decide (VERIFICATION_MAJORITY ≤
        (dequeAppend hist r.verified).count true) ∧
    dequeAppend [true, true, true, false] false =
      [true, true, true, false, false] ∧
    (verify_with_voting [true, true, true, false] emptyDBResult).2.verified
      = true ∧
    dequeAppend [true, true, false, false] false =
      [true, true, false, false, false] ∧
    (verify_with_voting [true, true, false, false] emptyDBResult).2.verified
      = false := by
  refine ⟨?_, by decide, by decide, by decide, by decide⟩
  simp only [verify_with_voting]
  rw [if_neg (not_lt.mpr h)]

/-- C4 witness: the theorem applied to the concrete window
`[T,T,F,F]` plus an incoming false frame. -/
theorem C4_majority_vote_witness :
    ((verify_with_voting [true, true, false, false] emptyDBResult).2.verified
        = decide (VERIFICATION_MAJORITY ≤
            (dequeAppend [true, true, false, false]
              emptyDBResult.verified).count true) ∧
      dequeAppend [true, true, true, false] false =
        [true, true, true, false, false] ∧
      (verify_with_voting [true, true, true, false]
          emptyDBResult).2.verified = true ∧
      dequeAppend [true, true, false, false] false =
        [true, true, false, false, false] ∧
      (verify_with_voting [true, true, false, false]
          emptyDBResult).2.verified = false) :=
  C4_majority_vote [true, true, false, false] emptyDBResult (by decide)

/-- C9: with a full-enough window, only the `verified` field is substituted
by the stabilized decision; the current frame's raw distance, confidence and
matched identity pass through unchanged. -/
theorem C9_voting_passthrough (hist : List Bool) (r : DBResult)
    (h : VERIFICATION_MAJORITY ≤ (dequeAppend hist r.verified).length) :
    (verify_with_voting hist r).2.distance = r.distance ∧
    (verify_with_voting hist r).2.confidence = r.confidence ∧
    (verify_with_voting hist r).2.user_id = r.user_id ∧
    (verify_with_voting hist r).2.user_name = r.user_name ∧
    (verify_with_voting hist r).2.verified =
      decide (VERIFICATION_MAJORITY ≤
        (dequeAppend hist r.verified).count true) := by
  simp only [verify_with_voting]
  rw [if_neg (not_lt.mpr h)]
  exact ⟨rfl, rfl, rfl, rfl, rfl⟩

/-- C9 witness: the theorem applied to a concrete frame whose distance is
0.37 and confidence 42. -/
theorem C9_voting_passthrough_witness :
    ((verify_with_voting [true, true, false, false]
        (DBResult.mk true ((0.37 : ℝ) : DistVal) 42 (some "u1")
          (some "Bob"))).2.distance =
      (DBResult.mk true ((0.37 : ℝ) : DistVal) 42 (some "u1")
          (some "Bob")).distance ∧
     (verify_with_voting [true, true, false, false]
        (DBResult.mk true ((0.37 : ℝ) : DistVal) 42 (some "u1")
          (some "Bob"))).2.confidence =
      (DBResult.mk true ((0.37 : ℝ) : DistVal) 42 (some "u1")
          (some "Bob")).confidence ∧
     (verify_with_voting [true, true, false, false]
        (DBResult.mk true ((0.37 : ℝ) : DistVal) 42 (some "u1")
          (some "Bob"))).2.user_id =
      (DBResult.mk true ((0.37 : ℝ) : DistVal) 42 (some "u1")
          (some "Bob")).user_id ∧
     (verify_with_voting [true, true, false, false]
        (DBResult.mk true ((0.37 : ℝ) : DistVal) 42 (some "u1")
          (some "Bob"))).2.user_name =
      (DBResult.mk true ((0.37 : ℝ) : DistVal) 42 (some "u1")
          (some "Bob")).user_name ∧
     (verify_with_voting [true, true, false, false]
        (DBResult.mk true ((0.37 : ℝ) : DistVal) 42 (some "u1")
          (some "Bob"))).2.verified =
      decide (VERIFICATION_MAJORITY ≤
        (dequeAppend [true, true, false, false]
          (DBResult.mk true ((0.37 : ℝ) : DistVal) 42 (some "u1")
            (some "Bob")).verified).count true)) :=
  C9_voting_passthrough [true, true, false, false]
    (DBResult.mk true ((0.37 : ℝ) : DistVal) 42 (some "u1") (some "Bob"))
    (by decide)

/-- C10: while the voting history holds fewer than `VERIFICATION_MAJORITY`
entries after the append, the current frame's raw `verified` flag is
returned unchanged, tagged as collecting, with distance and confidence
untouched — no stabilized substitution happens. -/
theorem C10_collecting (hist : List Bool) (r : DBResult)
    (h : (dequeAppend hist r.verified).length < VERIFICATION_MAJORITY) :
    (verify_with_voting hist r).2.verified = r.verified ∧
    (verify_with_voting hist r).2.voting_status = "collecting" ∧
    (verify_with_voting hist r).2.distance = r.distance ∧
    (verify_with_voting hist r).2.confidence = r.confidence := by
  simp only [verify_with_voting]
  rw [if_pos h]
  exact ⟨rfl, rfl, rfl, rfl⟩

/-- C10 witness: the theorem applied to the very first frame of a
session. -/
theorem C10_collecting_witness :
    ((verify_with_voting [] emptyDBResult).2.verified =
        emptyDBResult.verified ∧
      (verify_with_voting [] emptyDBResult).2.voting_status = "collecting" ∧
      (verify_with_voting [] emptyDBResult).2.distance =
        emptyDBResult.distance ∧
      (verify_with_voting [] emptyDBResult).2.confidence =
        emptyDBResult.confidence) :=
  C10_collecting [] emptyDBResult (by decide)

/-! ### C2 — null inputs and dimension mismatch -/

/-- C2 (amended): a null vector on either side yields `+infinity` rather
than an error, and two vectors of different lengths raise
`DimensionMismatch` under the cosine metric, or under the euclidean metrics
whenever neither vector has length 1 (when one side has length 1 numpy
broadcasting silently computes a value instead — see the
counterexample). -/
theorem C2_null_and_mismatch :
    (∀ (v : Verifier) (e : Option Vec),
        v.calculate_distance none e = .ok ⊤ ∧
        v.calculate_distance e none = .ok ⊤) ∧
    (∀ (v : Verifier) (a b : Vec), a.length ≠ b.length →
        (v.metric = .cosine ∨ (a.length ≠ 1 ∧ b.length ≠ 1)) →
        v.calculate_distance (some a) (some b) =
          .error .DimensionMismatch) := by
  constructor
  · intro v e
    cases e <;> exact ⟨rfl, rfl⟩
  · intro v a b hlen hcase
    have hd : distF v.metric a b = .error .DimensionMismatch := by
      cases hm : v.metric with
      | cosine =>
          simp only [distF, dotE]
          rw [if_neg hlen]
          rfl
      | euclidean =>
          rcases hcase with hc | ⟨h1, h2⟩
          · rw [hm] at hc; cases hc
          · simp only [distF, subB]
            rw [if_neg hlen, if_neg h1, if_neg h2]
            rfl
      | euclidean_l2 =>
          rcases hcase with hc | ⟨h1, h2⟩
          · rw [hm] at hc; cases hc
          · simp only [distF, subB]
            rw [if_neg (by simpa using hlen), if_neg (by simpa using h1),
              if_neg (by simpa using h2)]
            rfl
    simp only [Verifier.calculate_distance]
    rw [hd]
    rfl

/-- C2 counterexample: under the euclidean metric the length-1 vector [0]
against the length-2 vector [3,4] does NOT raise; numpy broadcasting
computes distance 5 instead. -/
theorem C2_broadcast_counterexample :
    ([(0 : ℝ)] : Vec).length ≠ ([(3 : ℝ), 4] : Vec).length ∧
    (Verifier.mk 0.25 .euclidean).calculate_distance (some [0])
      (some [3, 4]) = .ok ((5 : ℝ) : DistVal) := by
  refine ⟨by simp, ?_⟩
  have hsub : subB [(0 : ℝ)] [3, 4] = .ok [(-3 : ℝ), -4] := by
    simp [subB]
  have hs : sumSq [(-3 : ℝ), -4] = 25 := by
    simp [sumSq]
    norm_num
  have hn : norm2 [(-3 : ℝ), -4] = 5 := by
    rw [norm2, hs]
    exact sqrt_eval (by norm_num) (by norm_num)
  have hd : distF .euclidean [(0 : ℝ)] [3, 4] = .ok 5 := by
    unfold distF
    rw [hsub]
    show Except.ok (norm2 [(-3 : ℝ), -4]) = _
    rw [hn]
  simp only [Verifier.calculate_distance]
  rw [hd]
  rfl

/-! ### C6 — empty scope / vectorless identities -/

/-- C6: a query against a database in which no visible identity has any
stored vector (zero identities included) yields the empty result
(no match, distance +inf, confidence 0, not verified); likewise `verify`
against an empty embedding list. -/
theorem C6_empty_store (v : Verifier) (q : Option Vec) (db : DBManager)
    (h : ∀ u ∈ db.users, u.embeddings = []) :
    v.verify_with_database q db =
      .ok (DBResult.mk false ⊤ 0 none none) ∧
    v.verify q [] = .ok (VerifyOutcome.mk false ⊤ 0) := by
  constructor
  · exact dbLoop_all_empty v q db.users emptyDBResult h
  · cases q <;> rfl

/-- C6 witness: a database holding one identity with no vectors. -/
theorem C6_empty_store_witness :
    (Verifier.mk 0.25 .cosine).verify_with_database (some [1])
        (DBManager.mk [DBUser.mk "u0" "Empty" (some 1) []]) =
      .ok (DBResult.mk false ⊤ 0 none none) ∧
    (Verifier.mk 0.25 .cosine).verify (some [1]) [] =
      .ok (VerifyOutcome.mk false ⊤ 0) :=
  C6_empty_store (Verifier.mk 0.25 .cosine) (some [1])
    (DBManager.mk [DBUser.mk "u0" "Empty" (some 1) []])
    (by intro u hu; rcases List.mem_singleton.mp hu with rfl; rfl)

/-! ### C7 — duplicate threshold below verification threshold -/

/-- C7: the configured duplicate threshold (0.20) is strictly smaller than
the verification threshold (0.25), so any result the enroll check flags as
a duplicate (distance < DUPLICATE_THRESHOLD, the api.py test) would also
verify-match (distance < VERIFICATION_THRESHOLD). -/
theorem C7_threshold_monotone (r : DBResult)
    (h : r.distance < (DUPLICATE_THRESHOLD : DistVal)) :
    DUPLICATE_THRESHOLD < VERIFICATION_THRESHOLD ∧
    r.distance < (VERIFICATION_THRESHOLD : DistVal) := by
  have hlt : DUPLICATE_THRESHOLD < VERIFICATION_THRESHOLD := by
    norm_num [DUPLICATE_THRESHOLD, VERIFICATION_THRESHOLD]
  exact ⟨hlt, lt_trans h (WithTop.coe_lt_coe.mpr hlt)⟩

/-- C7 witness: a duplicate-flagged result at distance 0.1. -/
theorem C7_threshold_monotone_witness :
    DUPLICATE_THRESHOLD < VERIFICATION_THRESHOLD ∧
    (DBResult.mk true ((0.1 : ℝ) : DistVal) 0 (some "x")
      (some "X")).distance < (VERIFICATION_THRESHOLD : DistVal) :=
  C7_threshold_monotone
    (DBResult.mk true ((0.1 : ℝ) : DistVal) 0 (some "x") (some "X"))
    (WithTop.coe_lt_coe.mpr (by norm_num [DUPLICATE_THRESHOLD]))

/-! ### Evaluation of `verify_with_database` on a one-user database -/

theorem vwd_single (v : Verifier) (q e : Vec) (d : ℝ) (uid nm : String)
    (ow : Option Nat) (h : distF v.metric q e = .ok d) :
    v.verify_with_database (some q) (DBManager.mk [DBUser.mk uid nm ow [e]])
      = .ok (DBResult.mk (decide (d < v.threshold)) (d : DistVal) (v.conf d)
          (some uid) (some nm)) := by
  have hv := verify_single v q e d h
  show dbLoop v (some q) [DBUser.mk uid nm ow [e]] emptyDBResult = _
  simp only [dbLoop]
  rw [if_neg (by simp)]
  rw [hv]
  show dbLoop v (some q) []
      (if (d : DistVal) < emptyDBResult.distance then _ else _) = _
  rw [if_pos (show (d : DistVal) < emptyDBResult.distance from
    WithTop.coe_lt_top d)]
  rfl

theorem distF_cosine_unit : distF .cosine [(1 : ℝ)] [1] =
    .ok (eps / (1 + eps)) := by
  have h := distF_self_cosine [(1 : ℝ)]
  rw [show sumSq [(1 : ℝ)] = 1 from by simp [sumSq]] at h
  exact h

theorem eps_frac_facts :
    (0 : ℝ) < eps / (1 + eps) ∧ eps / (1 + eps) < eps ∧
    eps / (1 + eps) < DUPLICATE_THRESHOLD ∧
    eps / (1 + eps) < VERIFICATION_THRESHOLD := by
  have heps := eps_pos
  have h1e : (0 : ℝ) < 1 + eps := by linarith
  have h0 : (0 : ℝ) < eps / (1 + eps) := div_pos heps h1e
  have hlt : eps / (1 + eps) < eps := by
    rw [div_lt_iff h1e]
    nlinarith
  exact ⟨h0, hlt, lt_trans hlt (by norm_num [eps, DUPLICATE_THRESHOLD]),
    lt_trans hlt (by norm_num [eps, VERIFICATION_THRESHOLD])⟩

theorem conf_eps_frac :
    defaultVerifier.conf (eps / (1 + eps)) =
      (1 - (eps / (1 + eps)) / VERIFICATION_THRESHOLD) * 100 ∧
    99 < defaultVerifier.conf (eps / (1 + eps)) ∧
    defaultVerifier.conf (eps / (1 + eps)) < 100 := by
  obtain ⟨h0, hlt, -, -⟩ := eps_frac_facts
  have hth : defaultVerifier.threshold = VERIFICATION_THRESHOLD := rfl
  have hsmall : eps / (1 + eps) < 0.0025 :=
    lt_trans hlt (by norm_num [eps])
  have hx0 : (0 : ℝ) < eps / (1 + eps) / VERIFICATION_THRESHOLD :=
    div_pos h0 (by norm_num [VERIFICATION_THRESHOLD])
  have hx1 : eps / (1 + eps) / VERIFICATION_THRESHOLD < 0.01 := by
    rw [div_lt_iff (by norm_num [VERIFICATION_THRESHOLD] :
      (0 : ℝ) < VERIFICATION_THRESHOLD)]
    calc eps / (1 + eps) < 0.0025 := hsmall
      _ = 0.01 * 0.25 := by norm_num
      _ = 0.01 * VERIFICATION_THRESHOLD := by norm_num [VERIFICATION_THRESHOLD]
  have heq : defaultVerifier.conf (eps / (1 + eps)) =
      (1 - (eps / (1 + eps)) / VERIFICATION_THRESHOLD) * 100 := by
    simp only [Verifier.conf]
    rw [if_pos (show defaultVerifier.metric = Metric.cosine from rfl), hth]
    have hA : (0 : ℝ) ≤ (1 - eps / (1 + eps) / VERIFICATION_THRESHOLD) * 100 := by
      nlinarith
    have hB : (1 - eps / (1 + eps) / VERIFICATION_THRESHOLD) * 100 ≤ 100 := by
      nlinarith
    rw [sup_eq_right.mpr hA, inf_eq_right.mpr hB]
  refine ⟨heq, ?_, ?_⟩
  · rw [heq]
    nlinarith
  · rw [heq]
    nlinarith

/-! ### C8 — self-distance and the exact-match scenario -/

/-- C8 (amended): `distance(v, v)` is exactly 0 for the euclidean metric;
for the cosine metric it equals `eps / (‖v‖² + eps)` — positive, at most
eps = 1e-10 for unit-scale vectors, but 1 at the zero vector.  With one
identity "alice" holding exactly the query vector [1], cosine metric and
threshold 0.25, the matcher returns alice verified with distance
`eps / (1 + eps)` (strictly positive, not exactly 0) and confidence
strictly between 99 and 100 (not exactly 100). -/
theorem C8_self_distance :
    (∀ a : Vec, distF .euclidean a a = .ok 0) ∧
    (∀ a : Vec, distF .cosine a a = .ok (eps / (sumSq a + eps))) ∧
    (∀ a : Vec, 1 ≤ sumSq a → eps / (sumSq a + eps) ≤ eps) ∧
    defaultVerifier.verify_with_database (some [1])
        (DBManager.mk [DBUser.mk "alice" "Alice" none [[1]]]) =
      .ok (DBResult.mk true ((eps / (1 + eps) : ℝ) : DistVal)
        (defaultVerifier.conf (eps / (1 + eps))) (some "alice")
        (some "Alice")) ∧
    (0 : ℝ) < eps / (1 + eps) ∧
    eps / (1 + eps) < VERIFICATION_THRESHOLD ∧
    99 < defaultVerifier.conf (eps / (1 + eps)) ∧
    defaultVerifier.conf (eps / (1 + eps)) < 100 := by
  obtain ⟨h0, hlt, -, hver⟩ := eps_frac_facts
  obtain ⟨-, hc99, hc100⟩ := conf_eps_frac
  refine ⟨fun a => distF_self_euclidean a, fun a => distF_self_cosine a,
    ?_, ?_, h0, hver, hc99, hc100⟩
  · intro a ha
    have heps := eps_pos
    have hS : (0 : ℝ) < sumSq a + eps := by linarith
    rw [div_le_iff hS]
    nlinarith
  · have hres := vwd_single defaultVerifier [1] [1] (eps / (1 + eps))
      "alice" "Alice" none distF_cosine_unit
    rw [show decide (eps / (1 + eps) < defaultVerifier.threshold) = true from
      decide_eq_true hver] at hres
    exact hres

/-- C8 counterexample: cosine self-distance of the zero vector [0] is 1,
nowhere near 0 — the claim "distance(v, v) = 0 (within floating epsilon)
for the cosine metric" fails at v = [0]. -/
theorem C8_zero_vector_counterexample :
    distF .cosine [(0 : ℝ)] [0] = .ok 1 ∧ (1 : ℝ) ≠ 0 := by
  refine ⟨?_, by norm_num⟩
  have h := distF_self_cosine [(0 : ℝ)]
  rw [show sumSq [(0 : ℝ)] = 0 from by simp [sumSq]] at h
  rw [show eps / (0 + eps) = 1 from by
    rw [zero_add]
    exact div_self (ne_of_gt eps_pos)] at h
  exact h

/-! ### C1 — the matcher ignores the account scope -/

/-- C1 (code bug): account 1's scope is empty — `get_all_users (some 1)`
returns no user — yet `verify_with_database`, which `api.py` invokes on
behalf of account 1 for the duplicate check, enumerates every account's
users (it calls `get_all_users()` with no owner filter) and matches "bob",
an identity owned by account 2, below the duplicate threshold. -/
theorem C1_cross_account_match :
    (DBManager.mk [DBUser.mk "bob" "Bob" (some 2) [[1]]]).get_all_users
        (some 1) = [] ∧
    defaultVerifier.verify_with_database (some [1])
        (DBManager.mk [DBUser.mk "bob" "Bob" (some 2) [[1]]]) =
      .ok (DBResult.mk true ((eps / (1 + eps) : ℝ) : DistVal)
        (defaultVerifier.conf (eps / (1 + eps))) (some "bob")
        (some "Bob")) ∧
    eps / (1 + eps) < DUPLICATE_THRESHOLD := by
  obtain ⟨-, -, hdup, hver⟩ := eps_frac_facts
  refine ⟨rfl, ?_, hdup⟩
  have hres := vwd_single defaultVerifier [1] [1] (eps / (1 + eps))
    "bob" "Bob" (some 2) distF_cosine_unit
  rw [show decide (eps / (1 + eps) < defaultVerifier.threshold) = true from
    decide_eq_true hver] at hres
  exact hres

theorem dbLoop_cons_better (v : Verifier) (q : Option Vec) (u : DBUser)
    (us : List DBUser) (best : DBResult) (r : VerifyOutcome)
    (hne : u.embeddings.isEmpty = false)
    (hv : v.verify q u.embeddings = .ok r)
    (hlt : r.distance < best.distance) :
    dbLoop v q (u :: us) best =
      dbLoop v q us (DBResult.mk r.verified r.distance r.confidence
        (some u.user_id) (some u.name)) := by
  simp only [dbLoop]
  rw [if_neg (by simp [hne]), hv]
  show dbLoop v q us (if r.distance < best.distance then
      DBResult.mk r.verified r.distance r.confidence (some u.user_id)
        (some u.name)
    else best) = _
  rw [if_pos hlt]

theorem dbLoop_cons_keep (v : Verifier) (q : Option Vec) (u : DBUser)
    (us : List DBUser) (best : DBResult) (r : VerifyOutcome)
    (hne : u.embeddings.isEmpty = false)
    (hv : v.verify q u.embeddings = .ok r)
    (hge : ¬ r.distance < best.distance) :
    dbLoop v q (u :: us) best = dbLoop v q us best := by
  simp only [dbLoop]
  rw [if_neg (by simp [hne]), hv]
  show dbLoop v q us (if r.distance < best.distance then
      DBResult.mk r.verified r.distance r.confidence (some u.user_id)
        (some u.name)
    else best) = _
  rw [if_neg hge]

theorem distF_euclid_03 : distF .euclidean [(0 : ℝ)] [0.3] = .ok 0.3 := by
  have h := distF_euclid_single 0 0.3
  rw [show Real.sqrt (((0 : ℝ) - 0.3) * ((0 : ℝ) - 0.3)) = (0.3 : ℝ) from
    sqrt_eval (by norm_num) (by norm_num)] at h
  exact h

theorem distF_euclid_01 : distF .euclidean [(0 : ℝ)] [0.1] = .ok 0.1 := by
  have h := distF_euclid_single 0 0.1
  rw [show Real.sqrt (((0 : ℝ) - 0.1) * ((0 : ℝ) - 0.1)) = (0.1 : ℝ) from
    sqrt_eval (by norm_num) (by norm_num)] at h
  exact h

/-! ### C3 — identity-level minimum, global argmin, first-wins tie-break -/

/-- C3: whenever every per-identity distance list evaluates without error,
the matcher's distance is the global minimum of the identity-level
distances (each being the minimum over that identity's stored vectors,
`userMin`), and the returned identity is the FIRST one in enumeration order
achieving it — every identity enumerated before it has a strictly larger
identity distance (so an exact tie goes to the earlier identity).
Concretely, with two identities at euclidean distances 0.3 and 0.1 from the
query, the matcher returns the 0.1-identity under either enumeration
order. -/
theorem C3_matcher_argmin (v : Verifier) (q : Vec)
    (pairs : List (DBUser × List ℝ)) (db : DBManager)
    (hdb : db.users = pairs.map Prod.fst)
    (hok : ∀ p ∈ pairs, distList v.metric q p.1.embeddings = .ok p.2) :
    (∃ r, v.verify_with_database (some q) db = .ok r ∧
      r.distance = (pairs.map (fun p => userMin p.2)).foldl min ⊤ ∧
      (r.distance = ⊤ → r.user_id = none) ∧
      (r.distance < ⊤ →
        ∃ pre pb post,
          pairs.map (fun p => (p.1, userMin p.2)) = pre ++ pb :: post ∧
          r.user_id = some pb.1.user_id ∧ pb.2 = r.distance ∧
          ∀ p' ∈ pre, r.distance < p'.2)) ∧
    (Verifier.mk 0.25 .euclidean).verify_with_database (some [0])
        (DBManager.mk [DBUser.mk "idA" "A" none [[0.3]],
          DBUser.mk "idB" "B" none [[0.1]]]) =
      .ok (DBResult.mk (decide ((0.1 : ℝ) < (0.25 : ℝ)))
        ((0.1 : ℝ) : DistVal) ((Verifier.mk 0.25 .euclidean).conf 0.1)
        (some "idB") (some "B")) ∧
    (Verifier.mk 0.25 .euclidean).verify_with_database (some [0])
        (DBManager.mk [DBUser.mk "idB" "B" none [[0.1]],
          DBUser.mk "idA" "A" none [[0.3]]]) =
      .ok (DBResult.mk (decide ((0.1 : ℝ) < (0.25 : ℝ)))
        ((0.1 : ℝ) : DistVal) ((Verifier.mk 0.25 .euclidean).conf 0.1)
        (some "idB") (some "B")) := by
  refine ⟨?_, ?_, ?_⟩
  · obtain ⟨b, hb, hpair⟩ := dbLoop_pairs v q pairs emptyDBResult hok
    have hpair2 : (b.user_id, b.distance) =
        (pairs.map (fun p => (p.1, userMin p.2))).foldl bestStep
          (none, ⊤) := hpair
    obtain ⟨s1, s2, s3⟩ :=
      bestFold_spec (pairs.map (fun p => (p.1, userMin p.2))) none ⊤
    have hid : b.user_id =
        ((pairs.map (fun p => (p.1, userMin p.2))).foldl bestStep
          (none, ⊤)).1 := congrArg Prod.fst hpair2
    have hdist : b.distance =
        ((pairs.map (fun p => (p.1, userMin p.2))).foldl bestStep
          (none, ⊤)).2 := congrArg Prod.snd hpair2
    refine ⟨b, ?_, ?_, ?_, ?_⟩
    · show dbLoop v (some q) (db.get_all_users none) emptyDBResult = .ok b
      rw [show db.get_all_users none = db.users from rfl, hdb]
      exact hb
    · rw [hdist, s1]
      simp only [List.foldl_map]
    · intro htop
      rw [hid]
      exact s2 (by rw [← hdist]; exact htop)
    · intro hlt
      obtain ⟨pre, pb, post, hsplit, hid2, hp2, hpre⟩ :=
        s3 (by rw [← hdist]; exact hlt)
      exact ⟨pre, pb, post, hsplit, by rw [hid]; exact hid2,
        by rw [hdist]; exact hp2,
        fun p' hp' => by rw [hdist]; exact hpre p' hp'⟩
  · have hvA := verify_single (Verifier.mk 0.25 .euclidean) [0] [0.3] 0.3
      distF_euclid_03
    have hvB := verify_single (Verifier.mk 0.25 .euclidean) [0] [0.1] 0.1
      distF_euclid_01
    have step1 : dbLoop (Verifier.mk 0.25 .euclidean) (some [0])
        [DBUser.mk "idA" "A" none [[0.3]], DBUser.mk "idB" "B" none [[0.1]]]
        emptyDBResult =
      dbLoop (Verifier.mk 0.25 .euclidean) (some [0])
        [DBUser.mk "idB" "B" none [[0.1]]]
        (DBResult.mk (decide ((0.3 : ℝ) < (0.25 : ℝ)))
          ((0.3 : ℝ) : DistVal)
          ((Verifier.mk 0.25 .euclidean).conf 0.3) (some "idA")
          (some "A")) :=
      dbLoop_cons_better (Verifier.mk 0.25 .euclidean) (some [0])
        (DBUser.mk "idA" "A" none [[0.3]])
        [DBUser.mk "idB" "B" none [[0.1]]] emptyDBResult _ rfl hvA
        (WithTop.coe_lt_top 0.3)
    have step2 : dbLoop (Verifier.mk 0.25 .euclidean) (some [0])
        [DBUser.mk "idB" "B" none [[0.1]]]
        (DBResult.mk (decide ((0.3 : ℝ) < (0.25 : ℝ)))
          ((0.3 : ℝ) : DistVal)
          ((Verifier.mk 0.25 .euclidean).conf 0.3) (some "idA")
          (some "A")) =
      dbLoop (Verifier.mk 0.25 .euclidean) (some [0]) []
        (DBResult.mk (decide ((0.1 : ℝ) < (0.25 : ℝ)))
          ((0.1 : ℝ) : DistVal)
          ((Verifier.mk 0.25 .euclidean).conf 0.1) (some "idB")
          (some "B")) :=
      dbLoop_cons_better (Verifier.mk 0.25 .euclidean) (some [0])
        (DBUser.mk "idB" "B" none [[0.1]]) []
        (DBResult.mk (decide ((0.3 : ℝ) < (0.25 : ℝ)))
          ((0.3 : ℝ) : DistVal)
          ((Verifier.mk 0.25 .euclidean).conf 0.3) (some "idA")
          (some "A")) _ rfl hvB
        (WithTop.coe_lt_coe.mpr (by norm_num))
    show dbLoop (Verifier.mk 0.25 .euclidean) (some [0])
        [DBUser.mk "idA" "A" none [[0.3]], DBUser.mk "idB" "B" none [[0.1]]]
        emptyDBResult = _
    rw [step1, step2]
    rfl
  · have hvA := verify_single (Verifier.mk 0.25 .euclidean) [0] [0.3] 0.3
      distF_euclid_03
    have hvB := verify_single (Verifier.mk 0.25 .euclidean) [0] [0.1] 0.1
      distF_euclid_01
    have step1 : dbLoop (Verifier.mk 0.25 .euclidean) (some [0])
        [DBUser.mk "idB" "B" none [[0.1]], DBUser.mk "idA" "A" none [[0.3]]]
        emptyDBResult =
      dbLoop (Verifier.mk 0.25 .euclidean) (some [0])
        [DBUser.mk "idA" "A" none [[0.3]]]
        (DBResult.mk (decide ((0.1 : ℝ) < (0.25 : ℝ)))
          ((0.1 : ℝ) : DistVal)
          ((Verifier.mk 0.25 .euclidean).conf 0.1) (some "idB")
          (some "B")) :=
      dbLoop_cons_better (Verifier.mk 0.25 .euclidean) (some [0])
        (DBUser.mk "idB" "B" none [[0.1]])
        [DBUser.mk "idA" "A" none [[0.3]]] emptyDBResult _ rfl hvB
        (WithTop.coe_lt_top 0.1)
    have step2 : dbLoop (Verifier.mk 0.25 .euclidean) (some [0])
        [DBUser.mk "idA" "A" none [[0.3]]]
        (DBResult.mk (decide ((0.1 : ℝ) < (0.25 : ℝ)))
          ((0.1 : ℝ) : DistVal)
          ((Verifier.mk 0.25 .euclidean).conf 0.1) (some "idB")
          (some "B")) =
      dbLoop (Verifier.mk 0.25 .euclidean) (some [0]) []
        (DBResult.mk (decide ((0.1 : ℝ) < (0.25 : ℝ)))
          ((0.1 : ℝ) : DistVal)
          ((Verifier.mk 0.25 .euclidean).conf 0.1) (some "idB")
          (some "B")) :=
      dbLoop_cons_keep (Verifier.mk 0.25 .euclidean) (some [0])
        (DBUser.mk "idA" "A" none [[0.3]]) []
        (DBResult.mk (decide ((0.1 : ℝ) < (0.25 : ℝ)))
          ((0.1 : ℝ) : DistVal)
          ((Verifier.mk 0.25 .euclidean).conf 0.1) (some "idB")
          (some "B")) _ rfl hvA
        (not_lt.mpr (WithTop.coe_le_coe.mpr (by norm_num)))
    show dbLoop (Verifier.mk 0.25 .euclidean) (some [0])
        [DBUser.mk "idB" "B" none [[0.1]], DBUser.mk "idA" "A" none [[0.3]]]
        emptyDBResult = _
    rw [step1, step2]
    rfl

/-- C3 witness: the general statement applied to a one-identity database
whose single stored vector coincides with the query. -/
theorem C3_matcher_argmin_witness :
    (∃ r, (Verifier.mk 0.25 .euclidean).verify_with_database (some [0])
        (DBManager.mk [DBUser.mk "w" "W" none [[(0 : ℝ)]]]) = .ok r ∧
      r.distance = ([(DBUser.mk "w" "W" none [[(0 : ℝ)]],
          [(0 : ℝ)])].map (fun p => userMin p.2)).foldl min ⊤ ∧
      (r.distance = ⊤ → r.user_id = none) ∧
      (r.distance < ⊤ →
        ∃ pre pb post,
          [(DBUser.mk "w" "W" none [[(0 : ℝ)]], [(0 : ℝ)])].map
              (fun p => (p.1, userMin p.2)) = pre ++ pb :: post ∧
          r.user_id = some pb.1.user_id ∧ pb.2 = r.distance ∧
          ∀ p' ∈ pre, r.distance < p'.2)) ∧
    (Verifier.mk 0.25 .euclidean).verify_with_database (some [0])
        (DBManager.mk [DBUser.mk "idA" "A" none [[0.3]],
          DBUser.mk "idB" "B" none [[0.1]]]) =
      .ok (DBResult.mk (decide ((0.1 : ℝ) < (0.25 : ℝ)))
        ((0.1 : ℝ) : DistVal) ((Verifier.mk 0.25 .euclidean).conf 0.1)
        (some "idB") (some "B")) ∧
    (Verifier.mk 0.25 .euclidean).verify_with_database (some [0])
        (DBManager.mk [DBUser.mk "idB" "B" none [[0.1]],
          DBUser.mk "idA" "A" none [[0.3]]]) =
      .ok (DBResult.mk (decide ((0.1 : ℝ) < (0.25 : ℝ)))
        ((0.1 : ℝ) : DistVal) ((Verifier.mk 0.25 .euclidean).conf 0.1)
        (some "idB") (some "B")) :=
  C3_matcher_argmin (Verifier.mk 0.25 .euclidean) [0]
    [(DBUser.mk "w" "W" none [[(0 : ℝ)]], [(0 : ℝ)])]
    (DBManager.mk [DBUser.mk "w" "W" none [[(0 : ℝ)]]]) rfl
    (by
      intro p hp
      rcases List.mem_singleton.mp hp with rfl
      show distList Metric.euclidean [0] [[(0 : ℝ)]] = .ok [(0 : ℝ)]
      simp only [distList]
      rw [show distF Metric.euclidean [(0 : ℝ)] [(0 : ℝ)] = .ok 0 from
        distF_self_euclidean [0]]
      rfl)
